import Mathlib

/-!
Verification of `sync_groups.py` (Planning Center Groups → Supabase sync).

The Python source is shallowly embedded below.  Python dictionaries coming
from JSON are modelled as association lists (`List (String × _)`), with
`pyGet` returning the last binding (Python dict assignment overwrites).
Python strings are Lean `String`s; the string operations used by the source
(`startswith`, `split(":", 1)[1]`, `strip`, `lower`, `in`) are modelled on
the underlying character list, which matches Python's per-character
semantics on the ASCII data involved.  `None` and JSON `null` are both
modelled as `Option.none` (both are what `dict.get` yields, and both are
falsy).  Python truthiness of JSON values is `jTruthy`.
-/

namespace SyncGroups

/-- A JSON scalar value, as it appears in a parsed API response.
Used for group attribute values (`attrs.get(...)` in the source). -/
inductive JVal where
  | jnull
  | jbool (b : Bool)
  | jnum (n : Int)
  | jstr (s : String)
deriving DecidableEq

/-- Python truthiness (`bool(v)`) of a JSON scalar:
`None`/`null`, `False`, `0` and `""` are falsy, everything else truthy. -/
def jTruthy : JVal → Bool
  | .jnull => false
  | .jbool b => b
  | .jnum n => decide (n ≠ 0)
  | .jstr s => decide (s ≠ "")

/-- `bool(d.get(k))`: a missing key is falsy. -/
def jTruthyOpt : Option JVal → Bool
  | none => false
  | some v => jTruthy v

/-- `d.get(k)` on a Python dict modelled as the list of assignments made to
it, in order: the last assignment to `k` wins (dict overwrite). -/
def pyGet {β : Type} (d : List (String × β)) (k : String) : Option β :=
  d.foldl (fun acc p => if p.1 = k then some p.2 else acc) none

/-- `s.startswith(pre)`: prefix test on the character sequence. -/
def pyStartswith (s pre : String) : Bool :=
  pre.data.isPrefixOf s.data

/-- `s.strip()`: drop whitespace from both ends of the character sequence. -/
def pyStrip (s : String) : String :=
  ⟨((s.data.dropWhile Char.isWhitespace).reverse.dropWhile Char.isWhitespace).reverse⟩

/-- `s.split(":", 1)[1]` for a string `s` known to start with `pre`, where
`pre` ends in its only colon (true of `"Campus:"`, `"Stage:"`, `"Type:"`,
`"Day:"`): everything after the first colon is everything after `pre`. -/
def splitRest (pre s : String) : String :=
  ⟨s.data.drop pre.data.length⟩

/-- `name.split(":", 1)[1].strip()` as used in `parse_tags_for_group`. -/
def tagValue (pre s : String) : String :=
  pyStrip (splitRest pre s)

/-- `s.lower()` (ASCII case folding, which covers the data involved). -/
def pyLower (s : String) : String :=
  ⟨s.data.map Char.toLower⟩

/-- Python `needle in hay` substring containment on character lists. -/
def listHasInfix (needle : List Char) : List Char → Bool
  | [] => needle.isEmpty
  | c :: rest => needle.isPrefixOf (c :: rest) || listHasInfix needle rest

/-! ## Collector (`fetch_all_groups`) -/

/-- One page of the paginated response: its `data` and `included` arrays,
plus the three places a next-page cursor may live (`links.next`,
`meta.next`, `meta.next_page_url`).  `none` models an absent or null
field; an empty string is also falsy in the source's `while url:` and
`if not next_url:` tests. -/
structure Page (α β : Type) where
  data : List α
  included : List β
  linksNext : Option String
  metaNext : Option String
  metaNextPageUrl : Option String

/-- Keep an optional string only if it is Python-truthy (present and
non-empty). -/
def truthyStr : Option String → Option String
  | none => none
  | some s => if s = "" then none else some s

/-- The next-page URL the loop will follow: `links.get("next")`, and if
that is falsy, `meta.get("next") or meta.get("next_page_url")`; the loop
continues only while the result is truthy. -/
def nextUrl {α β : Type} (p : Page α β) : Option String :=
  match truthyStr p.linksNext with
  | some u => some u
  | none =>
    match truthyStr p.metaNext with
    | some u => some u
    | none => truthyStr p.metaNextPageUrl

/-- One HTTP GET issued by the collector: the URL, and the query params
sent with it (`some (per_page, include)` on the first request, `none`
afterwards). -/
structure Request where
  url : String
  params : Option (Nat × String)
deriving DecidableEq

/-- The fixed collection endpoint. -/
def BASE_URL : String := "https://api.planningcenteronline.com/groups/v2/groups"

/-- What a run of the collector produced: the accumulated `data` and
`included` arrays and the list of requests issued, in order. -/
structure FetchResult (α β : Type) where
  allData : List α
  allIncluded : List β
  requests : List Request

/-- The `while url:` loop of `fetch_all_groups`, run against a server that
answers the successive requests with the successive elements of `pages`.
`idx` counts pages already fetched, so `idx = 0` is the first request
(`page == 1` in the source), the only one that carries query params.
The page's `data`/`included` are accumulated before the next-link check,
and the loop stops when `nextUrl` is exhausted. -/
def fetchGo {α β : Type} : List (Page α β) → String → Nat → FetchResult α β
  | [], _, _ => ⟨[], [], []⟩
  | p :: rest, url, idx =>
    let req : Request := ⟨url, if idx = 0 then some (100, "tags") else none⟩
    match nextUrl p with
    | none => ⟨p.data, p.included, [req]⟩
    | some u =>
      let r := fetchGo rest u (idx + 1)
      ⟨p.data ++ r.allData, p.included ++ r.allIncluded, req :: r.requests⟩

/-- `fetch_all_groups()`: start at `BASE_URL` with the params dict
`{"per_page": 100, "include": "tags"}`. -/
def fetch_all_groups {α β : Type} (pages : List (Page α β)) : FetchResult α β :=
  fetchGo pages BASE_URL 0

/-- A response sequence is well formed when it is nonempty, every page
before the last announces a next page, and the last does not. -/
def wellFormedB {α β : Type} : List (Page α β) → Bool
  | [] => false
  | [p] => (nextUrl p).isNone
  | p :: q :: rest => (nextUrl p).isSome && wellFormedB (q :: rest)

/-! ## Tag lookup builder (`build_tag_lookup`) -/

/-- One element of the `included` array, restricted to the fields the
source reads: `item.get("id")`, `item.get("type")`, and
`item.get("attributes", {}).get("name")`.  `none` models missing or null. -/
structure IncludedItem where
  id : Option String
  typeLabel : Option String
  name : Option String
deriving DecidableEq

/-- `"tag" in (item.get("type") or "").lower()`. -/
def hasTagType (t : Option String) : Bool :=
  listHasInfix "tag".data (pyLower (t.getD "")).data

/-- One iteration of the `build_tag_lookup` loop: skip items whose id or
name is falsy (`if not tag_id or not name: continue`); register
`id -> name` when the type label contains "tag" (case-insensitively). -/
def lookupStep (acc : List (String × String)) (item : IncludedItem) : List (String × String) :=
  match item.id, item.name with
  | some i, some n =>
    if i = "" || n = "" then acc
    else if hasTagType item.typeLabel then acc ++ [(i, n)]
    else acc
  | _, _ => acc

/-- `build_tag_lookup`: iterate `included` once, registering entries.  The
dict is modelled as the registration list in order; `pyGet` gives the
dict's last-write-wins reads. -/
def build_tag_lookup (included : List IncludedItem) : List (String × String) :=
  included.foldl lookupStep []

/-! ## Tag parser (`parse_tags_for_group`) -/

/-- One entry of `group["relationships"]["tags"]["data"]`: the source only
reads `t.get("id")`; `none` models a missing or null id. -/
structure RelEntry where
  id : Option String
deriving DecidableEq

/-- A raw group record, restricted to the fields the source reads:
`group.get("id")`, the attributes dict, and the tag relationship list
(`group.get("relationships", {}).get("tags", {}).get("data", [])`, empty
when any level is absent or null). -/
structure Group where
  id : Option String
  attributes : List (String × JVal)
  tagData : List RelEntry
deriving DecidableEq

/-- The output of `parse_tags_for_group`. -/
structure TagInfo where
  campus : Option String
  stage_of_life : Option String
  group_type : Option String
  days_of_week : List String
  tag_ids : List String
  tag_names : List String
deriving DecidableEq

/-- The first loop of `parse_tags_for_group`: walk the relationship
entries in order, skip falsy ids (`if not tag_id: continue`), append each
kept id to `tag_ids`, and append the looked-up name to `tag_names` when
the id is in the lookup. -/
def collectTags (lookup : List (String × String)) : List RelEntry → List String × List String
  | [] => ([], [])
  | t :: rest =>
    let r := collectTags lookup rest
    match truthyStr t.id with
    | none => r
    | some i =>
      match pyGet lookup i with
      | some nm => (i :: r.1, nm :: r.2)
      | none => (i :: r.1, r.2)

/-- The body of the `for name in tag_names:` loop: the if/elif chain over
the recognized prefixes.  Campus/Stage/Type overwrite, Day appends. -/
def stepName (acc : TagInfo) (name : String) : TagInfo :=
  if pyStartswith name "Campus:" then
    { acc with campus := some (tagValue "Campus:" name) }
  else if pyStartswith name "Stage:" then
    { acc with stage_of_life := some (tagValue "Stage:" name) }
  else if pyStartswith name "Type:" then
    { acc with group_type := some (tagValue "Type:" name) }
  else if pyStartswith name "Day:" then
    { acc with days_of_week := acc.days_of_week ++ [tagValue "Day:" name] }
  else acc

/-- `parse_tags_for_group`. -/
def parse_tags_for_group (g : Group) (lookup : List (String × String)) : TagInfo :=
  let c := collectTags lookup g.tagData
  let s := c.2.foldl stepName ⟨none, none, none, [], [], []⟩
  { s with tag_ids := c.1, tag_names := c.2 }

/-! Spec-side descriptions of the prefix convention, used to state the
claims about `stepName` (each mirrors one arm of the claim's wording). -/

/-- The value a `Campus:`-prefixed name contributes, per the claim. -/
def campusVal (n : String) : Option String :=
  if pyStartswith n "Campus:" then some (tagValue "Campus:" n) else none

/-- The value a `Stage:`-prefixed name contributes, per the claim. -/
def stageVal (n : String) : Option String :=
  if pyStartswith n "Stage:" then some (tagValue "Stage:" n) else none

/-- The value a `Type:`-prefixed name contributes, per the claim. -/
def typeVal (n : String) : Option String :=
  if pyStartswith n "Type:" then some (tagValue "Type:" n) else none

/-- The value a `Day:`-prefixed name contributes, per the claim. -/
def dayVal (n : String) : Option String :=
  if pyStartswith n "Day:" then some (tagValue "Day:" n) else none

/-- A tag name matching one of the four recognized prefixes. -/
def recognizedB (n : String) : Bool :=
  pyStartswith n "Campus:" || pyStartswith n "Stage:" ||
    pyStartswith n "Type:" || pyStartswith n "Day:"

/-- Last-write-wins update of an optional field. -/
def updLast (a b : Option String) : Option String :=
  match a with
  | some v => some v
  | none => b

/-! ## Transformer (`transform_group`) -/

/-- One destination row of `public.groups`, as built by `transform_group`.
Attribute-derived fields keep the raw JSON scalar (`Option JVal`, `none`
for a missing key). -/
structure Row where
  pco_group_id : Option String
  name : Option JVal
  description : Option JVal
  campus : Option String
  days_of_week : Option (List String)
  time_of_day : Option JVal
  stage_of_life : Option String
  group_type : Option String
  is_open : Bool
  max_size : Option JVal
  current_size : Option JVal
  church_center_url : Option JVal
  tags_ids : List String
  tags_names : List String
deriving DecidableEq

/-- `transform_group`: direct attribute mapping, tag-parser merge,
`is_open = not bool(attrs.get("archived_at"))`, and the
`tag_info["days_of_week"] or None` normalization of the empty list. -/
def transform_group (g : Group) (lookup : List (String × String)) : Row :=
  let attrs := g.attributes
  let ti := parse_tags_for_group g lookup
  { pco_group_id := g.id
    name := pyGet attrs "name"
    description := pyGet attrs "description"
    campus := ti.campus
    days_of_week := if ti.days_of_week = [] then none else some ti.days_of_week
    time_of_day := pyGet attrs "meeting_time"
    stage_of_life := ti.stage_of_life
    group_type := ti.group_type
    is_open := ! jTruthyOpt (pyGet attrs "archived_at")
    max_size := pyGet attrs "capacity"
    current_size := pyGet attrs "enrollment"
    church_center_url := pyGet attrs "url"
    tags_ids := ti.tag_ids
    tags_names := ti.tag_names }

/-! ## Reconciler (`clear_groups_table` and the write half of `sync`)

The Supabase client is abstracted as the backend-reported error indicator
(`getattr(response, "error", None)`) each call will carry: `deleteError`
for the table clear, `insertError i` for the i-th insert batch.  The
transport call itself succeeding is the ambient assumption; a response
that carries an error indicator is a soft failure the source must raise
on.  A call whose response carries an error is modelled as not applying
its write; earlier writes stay applied (no transaction spans the run). -/

structure Backend where
  deleteError : Option String
  insertError : Nat → Option String

/-- Outcome of a run: whether the clear was applied, the batches committed
in order, the final table contents, and the raised error (if any). -/
structure SyncResult where
  cleared : Bool
  committed : List (List Row)
  table : List Row
  error : Option String
deriving DecidableEq

/-- Structural worker for the batch slicing: `fuel` bounds the number of
slices (each step drops 200 > 0 elements, so `fuel = l.length` always
suffices and the 0-fuel arm is unreachable). -/
def chunkGo {α : Type} : Nat → List α → List (List α)
  | _, [] => []
  | 0, _ :: _ => []
  | fuel + 1, x :: rest => ((x :: rest).take 200) :: chunkGo fuel ((x :: rest).drop 200)

/-- `rows[i : i + 200]` slicing of the batch loop
(`for i in range(0, len(rows), 200)`). -/
def chunk200 {α : Type} (l : List α) : List (List α) :=
  chunkGo l.length l

/-- The rows `delete().neq("pco_group_id", "").execute()` does NOT remove:
those whose key equals the empty string (and, vacuously, a null key, which
SQL `<>` never matches). -/
def survivesClear (r : Row) : Bool :=
  match r.pco_group_id with
  | some s => decide (s = "")
  | none => true

/-- The batch-insert loop of `sync`: insert each batch in order, and raise
(stop) as soon as a response carries a backend error. -/
def insertBatches (b : Backend) : List (List Row) → Nat → List Row → List (List Row) × List Row × Option String
  | [], _, table => ([], table, none)
  | batch :: rest, i, table =>
    match b.insertError i with
    | some e => ([], table, some e)
    | none =>
      let r := insertBatches b rest (i + 1) (table ++ batch)
      (batch :: r.1, r.2.1, r.2.2)

/-- `clear_groups_table` followed by the batch-insert loop of `sync`,
acting on a table initially holding `init`. -/
def reconcile (b : Backend) (rows init : List Row) : SyncResult :=
  match b.deleteError with
  | some e => ⟨false, [], init, some e⟩
  | none =>
    let t0 := init.filter survivesClear
    let r := insertBatches b (chunk200 rows) 0 t0
    ⟨true, r.1, r.2.1, r.2.2⟩

/-- `sync`, from the point where the upstream data has been fetched:
build the tag lookup, transform every group, clear, then batch-insert. -/
def sync (b : Backend) (data : List Group) (included : List IncludedItem) (init : List Row) : SyncResult :=
  let lookup := build_tag_lookup included
  let rows := data.map (fun g => transform_group g lookup)
  reconcile b rows init

/-- Number of insert batches (counting from index `i`) before the first
one whose response carries a backend error. -/
def firstErrLen (b : Backend) : Nat → List (List Row) → Nat
  | _, [] => 0
  | i, _ :: rest =>
    match b.insertError i with
    | some _ => 0
    | none => firstErrLen b (i + 1) rest + 1

/-- The structured-field loop of `parse_tags_for_group` applied to a whole
list of resolved names (the `for name in tag_names:` loop). -/
def applyNames (a : TagInfo) (names : List String) : TagInfo :=
  names.foldl stepName a

/-- Spec-side description of which included items `build_tag_lookup`
registers: both id and name present and non-empty, and a type label
containing "tag" case-insensitively. -/
def keepTag (item : IncludedItem) : Option (String × String) :=
  match item.id, item.name with
  | some i, some n =>
    if i ≠ "" ∧ n ≠ "" ∧ hasTagType item.typeLabel = true then some (i, n) else none
  | _, _ => none

/-! Concrete fixtures used by witnesses, counterexamples and the spec's
worked examples. -/

/-- A group carrying the four tag references of the spec's tag-parser
example. -/
def exGroup : Group :=
  { id := some "g1", attributes := [],
    tagData := [⟨some "t1"⟩, ⟨some "t2"⟩, ⟨some "t3"⟩, ⟨some "t4"⟩] }

/-- The resolved names of the spec's tag-parser example. -/
def exLookup : List (String × String) :=
  [("t1", "Campus: Conway"), ("t2", "Day: Monday"),
   ("t3", "Day: Wednesday"), ("t4", "Random")]

/-- The included items of the spec's tag-lookup example, plus a tag-typed
item with no name attribute. -/
def exIncluded : List IncludedItem :=
  [⟨some "a", some "Tag", some "n1"⟩, ⟨some "b", some "tag", some "n2"⟩,
   ⟨some "c", some "group_tag", some "n3"⟩, ⟨some "d", some "Person", some "n4"⟩,
   ⟨some "e", some "Tag", none⟩]

/-- A group whose `archived_at` attribute is present with the non-null
JSON value `""`. -/
def exArchGroup : Group :=
  { id := some "g", attributes := [("archived_at", JVal.jstr "")], tagData := [] }

/-- A two-page response sequence: the first page links to the second, the
second is final. -/
def exPages : List (Page Nat Nat) :=
  [⟨[1, 2], [10], some "page2", none, none⟩, ⟨[3], [], none, none, none⟩]

/-- A group with two `Campus:` tags, to exhibit last-write-wins. -/
def exMultiGroup : Group :=
  { id := some "g2", attributes := [],
    tagData := [⟨some "u1"⟩, ⟨some "u2"⟩] }

/-- Lookup resolving `exMultiGroup`'s two tags to two `Campus:` names. -/
def exMultiLookup : List (String × String) :=
  [("u1", "Campus: A"), ("u2", "Campus: B")]

/-- A backend whose every response is error-free. -/
def quietBackend : Backend := ⟨none, fun _ => none⟩

/-- A backend whose delete response carries an error. -/
def delErrBackend : Backend := ⟨some "delete failed", fun _ => none⟩

/-- A backend whose second insert batch (index 1) reports a backend error
while the transport status is success. -/
def batch2ErrBackend : Backend := ⟨none, fun i => if i = 1 then some "soft failure" else none⟩

/-- A minimal destination row (used to build concrete batches). -/
def exRow : Row :=
  ⟨some "r1", none, none, none, none, none, none, none, true, none, none, none, [], []⟩

/-- A minimal upstream group for the pipeline witnesses. -/
def exSyncGroup : Group := { id := some "s1", attributes := [], tagData := [] }

/-! ## Helper lemmas: prefixes of tag names -/

theorem pyStartswith_head (s p : String) (c : Char) (hc : p.data.head? = some c)
    (h : pyStartswith s p = true) : s.data.head? = some c := by
  unfold pyStartswith at h
  rw [ List.isPrefixOf_iff_prefix] at h
  obtain ⟨t, ht⟩ := h
  cases hd : p.data with
  | nil => rw [hd] at hc; simp at hc
  | cons a as =>
    rw [hd] at hc ht
    simp only [List.head?_cons, Option.some.injEq] at hc
    subst hc
    rw [← ht]
    simp

theorem pyStartswith_excl (s p q : String) (c d : Char) (hp : p.data.head? = some c)
    (hq : q.data.head? = some d) (hcd : c ≠ d) (h : pyStartswith s p = true) :
    pyStartswith s q = false := by
  cases hh : pyStartswith s q with
  | false => rfl
  | true =>
    have e1 := pyStartswith_head s p c hp h
    have e2 := pyStartswith_head s q d hq hh
    rw [e1] at e2
    exact absurd (Option.some.inj e2) hcd

theorem stepName_campus (a : TagInfo) (n : String) :
    (stepName a n).campus = updLast (campusVal n) a.campus := by
  cases h1 : pyStartswith n "Campus:" with
  | true => simp [stepName, campusVal, updLast, h1]
  | false =>
    cases h2 : pyStartswith n "Stage:" <;>
      cases h3 : pyStartswith n "Type:" <;>
        cases h4 : pyStartswith n "Day:" <;>
          simp [stepName, campusVal, updLast, h1, h2, h3, h4]

theorem stepName_stage (a : TagInfo) (n : String) :
    (stepName a n).stage_of_life = updLast (stageVal n) a.stage_of_life := by
  cases h1 : pyStartswith n "Campus:" with
  | true =>
    have h2 := pyStartswith_excl n "Campus:" "Stage:" 'C' 'S' (by decide) (by decide) (by decide) h1
    simp [stepName, stageVal, updLast, h1, h2]
  | false =>
    cases h2 : pyStartswith n "Stage:" with
    | true => simp [stepName, stageVal, updLast, h1, h2]
    | false =>
      cases h3 : pyStartswith n "Type:" <;>
        cases h4 : pyStartswith n "Day:" <;>
          simp [stepName, stageVal, updLast, h1, h2, h3, h4]

theorem stepName_type (a : TagInfo) (n : String) :
    (stepName a n).group_type = updLast (typeVal n) a.group_type := by
  cases h1 : pyStartswith n "Campus:" with
  | true =>
    have h3 := pyStartswith_excl n "Campus:" "Type:" 'C' 'T' (by decide) (by decide) (by decide) h1
    simp [stepName, typeVal, updLast, h1, h3]
  | false =>
    cases h2 : pyStartswith n "Stage:" with
    | true =>
      have h3 := pyStartswith_excl n "Stage:" "Type:" 'S' 'T' (by decide) (by decide) (by decide) h2
      simp [stepName, typeVal, updLast, h1, h2, h3]
    | false =>
      cases h3 : pyStartswith n "Type:" <;>
        cases h4 : pyStartswith n "Day:" <;>
          simp [stepName, typeVal, updLast, h1, h2, h3, h4]

theorem stepName_days (a : TagInfo) (n : String) :
    (stepName a n).days_of_week = a.days_of_week ++ (dayVal n).toList := by
  cases h1 : pyStartswith n "Campus:" with
  | true =>
    have h4 := pyStartswith_excl n "Campus:" "Day:" 'C' 'D' (by decide) (by decide) (by decide) h1
    simp [stepName, dayVal, h1, h4]
  | false =>
    cases h2 : pyStartswith n "Stage:" with
    | true =>
      have h4 := pyStartswith_excl n "Stage:" "Day:" 'S' 'D' (by decide) (by decide) (by decide) h2
      simp [stepName, dayVal, h1, h2, h4]
    | false =>
      cases h3 : pyStartswith n "Type:" with
      | true =>
        have h4 := pyStartswith_excl n "Type:" "Day:" 'T' 'D' (by decide) (by decide) (by decide) h3
        simp [stepName, dayVal, h1, h2, h3, h4]
      | false =>
        cases h4 : pyStartswith n "Day:" <;>
          simp [stepName, dayVal, h1, h2, h3, h4]

theorem stepName_inert (a : TagInfo) (n : String) (h : recognizedB n = false) :
    stepName a n = a := by
  unfold recognizedB at h
  simp only [Bool.or_eq_false_iff] at h
  obtain ⟨⟨⟨h1, h2⟩, h3⟩, h4⟩ := h
  simp [stepName, h1, h2, h3, h4]

theorem updLast_none_right (x : Option String) : updLast x none = x := by
  cases x <;> rfl

theorem updLast_getLast (x : Option String) (l : List String) (b : Option String) :
    updLast ((x.toList ++ l).getLast?) b = updLast l.getLast? (updLast x b) := by
  cases x with
  | none => cases h : l.getLast? <;> simp [updLast, h]
  | some u =>
    cases l with
    | nil => simp [updLast]
    | cons a as =>
      cases h : (a :: as).getLast? with
      | none => simp at h
      | some v =>
        rw [show ((some u).toList ++ a :: as) = u :: a :: as from rfl]
        rw [List.getLast?_cons_cons, h]
        simp [updLast]

theorem applyNames_last (val : String → Option String) (get : TagInfo → Option String)
    (hstep : ∀ a n, get (stepName a n) = updLast (val n) (get a)) :
    ∀ (names : List String) (a : TagInfo),
      get (applyNames a names) = updLast ((names.filterMap val).getLast?) (get a) := by
  intro names
  induction names with
  | nil => intro a; simp [applyNames, updLast]
  | cons n ns ih =>
    intro a
    have h0 : applyNames a (n :: ns) = applyNames (stepName a n) ns := rfl
    have hfm : (n :: ns).filterMap val = (val n).toList ++ ns.filterMap val := by
      cases h : val n <;> simp [h, Option.toList]
    rw [h0, ih, hstep, hfm]
    exact (updLast_getLast (val n) (ns.filterMap val) (get a)).symm

theorem applyNames_days (names : List String) (a : TagInfo) :
    (applyNames a names).days_of_week = a.days_of_week ++ names.filterMap dayVal := by
  induction names generalizing a with
  | nil => simp [applyNames]
  | cons n ns ih =>
    have h0 : applyNames a (n :: ns) = applyNames (stepName a n) ns := rfl
    have hfm : (n :: ns).filterMap dayVal = (dayVal n).toList ++ ns.filterMap dayVal := by
      cases h : dayVal n <;> simp [h, Option.toList]
    rw [h0, ih, stepName_days, hfm, List.append_assoc]

/-! ## Helper lemmas: the tag-collection loop -/

theorem truthyStr_ne (o : Option String) (i : String) (h : truthyStr o = some i) : i ≠ "" := by
  cases o with
  | none => exact absurd h (by simp [truthyStr])
  | some s =>
    simp only [truthyStr] at h
    by_cases hs : s = ""
    · rw [if_pos hs] at h; exact absurd h (by simp)
    · rw [if_neg hs] at h; exact (Option.some.inj h) ▸ hs

theorem collectTags_fst (lookup : List (String × String)) (ts : List RelEntry) :
    (collectTags lookup ts).1 = ts.filterMap (fun t => truthyStr t.id) := by
  induction ts with
  | nil => rfl
  | cons t rest ih =>
    cases h : truthyStr t.id with
    | none => simp [collectTags, h, ih]
    | some i =>
      cases hg : pyGet lookup i <;> simp [collectTags, h, hg, ih]

theorem collectTags_snd (lookup : List (String × String)) (ts : List RelEntry) :
    (collectTags lookup ts).2 = ((collectTags lookup ts).1).filterMap (fun i => pyGet lookup i) := by
  induction ts with
  | nil => rfl
  | cons t rest ih =>
    cases h : truthyStr t.id with
    | none => simpa [collectTags, h] using ih
    | some i =>
      cases hg : pyGet lookup i <;> simp [collectTags, h, hg, ih]

/-! ## Helper lemmas: the lookup builder -/

theorem lookupStep_eq (acc : List (String × String)) (item : IncludedItem) :
    lookupStep acc item = acc ++ (keepTag item).toList := by
  obtain ⟨oid, oty, onm⟩ := item
  cases oid with
  | none => simp [lookupStep, keepTag]
  | some i =>
    cases onm with
    | none => simp [lookupStep, keepTag]
    | some n =>
      by_cases hi : i = "" <;> by_cases hn : n = "" <;>
        cases ht : hasTagType oty <;>
          simp [lookupStep, keepTag, hi, hn, ht, Option.toList]

theorem foldl_lookupStep (included : List IncludedItem) :
    ∀ acc : List (String × String),
      included.foldl lookupStep acc = acc ++ included.filterMap keepTag := by
  induction included with
  | nil => intro acc; simp
  | cons item rest ih =>
    intro acc
    rw [List.foldl_cons, ih, lookupStep_eq]
    have h : (keepTag item).toList ++ rest.filterMap keepTag
        = (item :: rest).filterMap keepTag := by
      cases h : keepTag item <;> simp [h, Option.toList]
    rw [List.append_assoc, h]

/-! ## Claim C3 -/

/-- C3, counterexample: the claim says a group whose attributes contain
`archived_at` with a non-null value yields `is_open = false`; but for the
non-null JSON value `""` (which is Python-falsy) the code computes
`is_open = true`. -/
theorem C3_counterexample :
    pyGet exArchGroup.attributes "archived_at" = some (JVal.jstr "")
    ∧ JVal.jstr "" ≠ JVal.jnull
    ∧ (transform_group exArchGroup []).is_open = true := by
  decide

/-- C3, amended: `transform_group` computes `is_open` as the logical
negation of "the `archived_at` attribute is present with a Python-truthy
(non-null, non-empty, non-zero, non-false) value"; in particular a group
whose attributes lack the `archived_at` key yields `is_open = true`. -/
theorem C3_is_open (g : Group) (lookup : List (String × String)) :
    ((transform_group g lookup).is_open = false
      ↔ ∃ v, pyGet g.attributes "archived_at" = some v ∧ jTruthy v = true)
    ∧ (pyGet g.attributes "archived_at" = none → (transform_group g lookup).is_open = true) := by
  have hopen : (transform_group g lookup).is_open
      = ! jTruthyOpt (pyGet g.attributes "archived_at") := rfl
  constructor
  · rw [hopen]
    cases h : pyGet g.attributes "archived_at" with
    | none => simp [jTruthyOpt]
    | some v => simp [jTruthyOpt]
  · intro h
    rw [hopen, h]
    rfl

/-- C3, witness: a group with no `archived_at` key is open. -/
theorem C3_is_open_witness :
    (transform_group ⟨some "g0", [], []⟩ []).is_open = true :=
  (C3_is_open ⟨some "g0", [], []⟩ []).2 rfl

/-! ## Claim C4 -/

/-- C4: the tag parser applies the naming convention: a name starting with
`Campus:` assigns its trimmed value to campus, `Stage:` to stage_of_life,
`Type:` to group_type, and `Day:` appends to days_of_week; across a whole
name list the Day values accumulate in appearance order without
deduplication; a name matching no recognized prefix leaves the parser
state untouched (it is retained only in the raw `tag_names`/`tag_ids`);
and on the spec's example the output is campus="Conway",
days_of_week=["Monday","Wednesday"], with "Random" only in tag_names. -/
theorem C4_tag_convention :
    (∀ (a : TagInfo) (n : String), pyStartswith n "Campus:" = true →
        (stepName a n).campus = some (tagValue "Campus:" n))
    ∧ (∀ (a : TagInfo) (n : String), pyStartswith n "Stage:" = true →
        (stepName a n).stage_of_life = some (tagValue "Stage:" n))
    ∧ (∀ (a : TagInfo) (n : String), pyStartswith n "Type:" = true →
        (stepName a n).group_type = some (tagValue "Type:" n))
    ∧ (∀ (a : TagInfo) (n : String), pyStartswith n "Day:" = true →
        (stepName a n).days_of_week = a.days_of_week ++ [tagValue "Day:" n])
    ∧ (∀ (a : TagInfo) (names : List String),
        (applyNames a names).days_of_week = a.days_of_week ++ names.filterMap dayVal)
    ∧ (∀ (a : TagInfo) (n : String), recognizedB n = false → stepName a n = a)
    ∧ parse_tags_for_group exGroup exLookup
        = ⟨some "Conway", none, none, ["Monday", "Wednesday"],
           ["t1", "t2", "t3", "t4"],
           ["Campus: Conway", "Day: Monday", "Day: Wednesday", "Random"]⟩ := by
  refine ⟨?_, ?_, ?_, ?_, fun a names => applyNames_days names a,
    fun a n h => stepName_inert a n h, by decide⟩
  · intro a n h
    rw [stepName_campus]
    simp [campusVal, h, updLast]
  · intro a n h
    rw [stepName_stage]
    simp [stageVal, h, updLast]
  · intro a n h
    rw [stepName_type]
    simp [typeVal, h, updLast]
  · intro a n h
    rw [stepName_days]
    simp [dayVal, h, Option.toList]

/-- C4, witness: a single `Day:` tag appends its trimmed value. -/
theorem C4_tag_convention_witness :
    (stepName ⟨none, none, none, [], [], []⟩ "Day: Friday").days_of_week = ["Friday"] := by
  have h := C4_tag_convention.2.2.2.1 ⟨none, none, none, [], [], []⟩ "Day: Friday" (by decide)
  exact h.trans (by decide)

/-! ## Claim C5 -/

/-- C5: `build_tag_lookup` registers exactly those included items whose
type label case-insensitively contains "tag" and which have a non-empty id
and a non-empty name; items missing id or name are skipped with no error,
and items with non-tag types (e.g. "Person") never populate the lookup:
on the spec's example only the `Tag`/`tag`/`group_tag` items register, and
the tag-typed item with no name is skipped. -/
theorem C5_tag_lookup :
    (∀ included : List IncludedItem, build_tag_lookup included = included.filterMap keepTag)
    ∧ (∀ item : IncludedItem, hasTagType item.typeLabel = false → keepTag item = none)
    ∧ build_tag_lookup exIncluded = [("a", "n1"), ("b", "n2"), ("c", "n3")]
    ∧ hasTagType (some "Person") = false := by
  refine ⟨fun included => foldl_lookupStep included [], ?_, by decide, by decide⟩
  intro item h
  obtain ⟨oid, oty, onm⟩ := item
  cases oid <;> cases onm <;> simp [keepTag, h] at h ⊢

/-- C5, witness: the "Person"-typed item of the example registers
nothing. -/
theorem C5_tag_lookup_witness :
    keepTag ⟨some "d", some "Person", some "n4"⟩ = none :=
  C5_tag_lookup.2.1 ⟨some "d", some "Person", some "n4"⟩ (by decide)

/-! ## Claim C6 -/

/-- C6: `tag_ids` keeps every truthy tag reference id whether or not the
lookup resolves it (it does not depend on the lookup at all), and
`tag_names` is exactly the list of lookup values of the resolvable ids, in
relationship-list order — unresolvable ids contribute no name. -/
theorem C6_unresolved_ids (g : Group) (lookup : List (String × String)) :
    (parse_tags_for_group g lookup).tag_names
        = ((parse_tags_for_group g lookup).tag_ids).filterMap (fun i => pyGet lookup i)
    ∧ (parse_tags_for_group g lookup).tag_ids
        = g.tagData.filterMap (fun t => truthyStr t.id) := by
  constructor
  · show (collectTags lookup g.tagData).2
        = ((collectTags lookup g.tagData).1).filterMap (fun i => pyGet lookup i)
    exact collectTags_snd lookup g.tagData
  · show (collectTags lookup g.tagData).1 = _
    exact collectTags_fst lookup g.tagData

/-! ## Claim C9 -/

/-- C9: when several resolved names carry the same single-valued prefix,
the structured field holds the value of the last such name in
relationship-list order (`getLast?` of the per-name values), while `Day:`
values accumulate; on a concrete group with two `Campus:` tags the later
one wins. -/
theorem C9_last_write_wins (g : Group) (lookup : List (String × String)) :
    (parse_tags_for_group g lookup).campus
        = (((parse_tags_for_group g lookup).tag_names).filterMap campusVal).getLast?
    ∧ (parse_tags_for_group g lookup).stage_of_life
        = (((parse_tags_for_group g lookup).tag_names).filterMap stageVal).getLast?
    ∧ (parse_tags_for_group g lookup).group_type
        = (((parse_tags_for_group g lookup).tag_names).filterMap typeVal).getLast?
    ∧ (parse_tags_for_group g lookup).days_of_week
        = ((parse_tags_for_group g lookup).tag_names).filterMap dayVal
    ∧ parse_tags_for_group exMultiGroup exMultiLookup
        = ⟨some "B", none, none, [], ["u1", "u2"], ["Campus: A", "Campus: B"]⟩ := by
  refine ⟨?_, ?_, ?_, ?_, by decide⟩
  · show (applyNames ⟨none, none, none, [], [], []⟩ (collectTags lookup g.tagData).2).campus
        = ((collectTags lookup g.tagData).2.filterMap campusVal).getLast?
    rw [applyNames_last campusVal TagInfo.campus stepName_campus]
    exact updLast_none_right _
  · show (applyNames ⟨none, none, none, [], [], []⟩ (collectTags lookup g.tagData).2).stage_of_life
        = ((collectTags lookup g.tagData).2.filterMap stageVal).getLast?
    rw [applyNames_last stageVal TagInfo.stage_of_life stepName_stage]
    exact updLast_none_right _
  · show (applyNames ⟨none, none, none, [], [], []⟩ (collectTags lookup g.tagData).2).group_type
        = ((collectTags lookup g.tagData).2.filterMap typeVal).getLast?
    rw [applyNames_last typeVal TagInfo.group_type stepName_type]
    exact updLast_none_right _
  · show (applyNames ⟨none, none, none, [], [], []⟩ (collectTags lookup g.tagData).2).days_of_week
        = ((collectTags lookup g.tagData).2.filterMap dayVal)
    rw [applyNames_days]
    rfl

/-! ## Claim C10 -/

/-- C10: a tag relationship entry whose id is missing/null (`none`) or
empty is skipped entirely — the parse result is the same as without the
entry, so it reaches neither `tag_ids` nor `tag_names` nor any structured
field — and every id in `tag_ids` is truthy (non-empty). -/
theorem C10_falsy_ids (g : Group) (lookup : List (String × String)) :
    (∀ i ∈ (parse_tags_for_group g lookup).tag_ids, i ≠ "")
    ∧ (∀ (gid : Option String) (attrs : List (String × JVal)) (t : RelEntry)
        (ts : List RelEntry), truthyStr t.id = none →
          parse_tags_for_group ⟨gid, attrs, t :: ts⟩ lookup
            = parse_tags_for_group ⟨gid, attrs, ts⟩ lookup) := by
  constructor
  · intro i hi
    have h : (parse_tags_for_group g lookup).tag_ids
        = g.tagData.filterMap (fun t => truthyStr t.id) := collectTags_fst lookup g.tagData
    rw [h] at hi
    obtain ⟨t, _, ht⟩ := List.mem_filterMap.mp hi
    exact truthyStr_ne t.id i ht
  · intro gid attrs t ts h
    unfold parse_tags_for_group
    simp [collectTags, h]

/-- C10, witness: an entry whose id is the empty string changes nothing. -/
theorem C10_falsy_ids_witness :
    parse_tags_for_group ⟨some "g", [], [⟨some ""⟩]⟩ []
      = parse_tags_for_group ⟨some "g", [], []⟩ [] :=
  (C10_falsy_ids ⟨some "g", [], []⟩ []).2 (some "g") [] ⟨some ""⟩ [] (by decide)

/-! ## Helper lemmas: the collector loop -/

theorem fetchGo_cons_none {α β : Type} (p : Page α β) (rest : List (Page α β))
    (url : String) (i : Nat) (hu : nextUrl p = none) :
    fetchGo (p :: rest) url i
      = ⟨p.data, p.included, [⟨url, if i = 0 then some (100, "tags") else none⟩]⟩ := by
  rw [show fetchGo (p :: rest) url i
      = (match nextUrl p with
         | none => ⟨p.data, p.included, [⟨url, if i = 0 then some (100, "tags") else none⟩]⟩
         | some u =>
           ⟨p.data ++ (fetchGo rest u (i + 1)).allData,
            p.included ++ (fetchGo rest u (i + 1)).allIncluded,
            ⟨url, if i = 0 then some (100, "tags") else none⟩
              :: (fetchGo rest u (i + 1)).requests⟩) from rfl, hu]

theorem fetchGo_cons_some {α β : Type} (p : Page α β) (rest : List (Page α β))
    (url u : String) (i : Nat) (hu : nextUrl p = some u) :
    fetchGo (p :: rest) url i
      = ⟨p.data ++ (fetchGo rest u (i + 1)).allData,
         p.included ++ (fetchGo rest u (i + 1)).allIncluded,
         ⟨url, if i = 0 then some (100, "tags") else none⟩
           :: (fetchGo rest u (i + 1)).requests⟩ := by
  rw [show fetchGo (p :: rest) url i
      = (match nextUrl p with
         | none => ⟨p.data, p.included, [⟨url, if i = 0 then some (100, "tags") else none⟩]⟩
         | some u =>
           ⟨p.data ++ (fetchGo rest u (i + 1)).allData,
            p.included ++ (fetchGo rest u (i + 1)).allIncluded,
            ⟨url, if i = 0 then some (100, "tags") else none⟩
              :: (fetchGo rest u (i + 1)).requests⟩) from rfl, hu]

theorem fetchGo_wf {α β : Type} :
    ∀ pages : List (Page α β), wellFormedB pages = true → ∀ (url : String) (i : Nat),
      (fetchGo pages url i).allData = pages.flatMap Page.data
      ∧ (fetchGo pages url i).allIncluded = pages.flatMap Page.included
      ∧ (fetchGo pages url i).requests.length = pages.length
      ∧ (fetchGo pages url i).requests.map Request.url
          = url :: pages.dropLast.filterMap nextUrl := by
  intro pages
  induction pages with
  | nil => intro h; simp [wellFormedB] at h
  | cons p rest ih =>
    intro h url i
    cases rest with
    | nil =>
      have hn : nextUrl p = none := by
        simpa [wellFormedB, Option.isNone_iff_eq_none] using h
      rw [fetchGo_cons_none p [] url i hn]
      simp
    | cons q rest2 =>
      have h1 : (nextUrl p).isSome = true ∧ wellFormedB (q :: rest2) = true := by
        simpa [wellFormedB] using h
      obtain ⟨u, hu⟩ := Option.isSome_iff_exists.mp h1.1
      obtain ⟨i1, i2, i3, i4⟩ := ih h1.2 u (i + 1)
      rw [fetchGo_cons_some p (q :: rest2) url u i hu]
      refine ⟨by simp [i1], by simp [i2], by simp [i3], ?_⟩
      show url :: (fetchGo (q :: rest2) u (i + 1)).requests.map Request.url
          = url :: (p :: q :: rest2).dropLast.filterMap nextUrl
      rw [i4]
      show url :: u :: (q :: rest2).dropLast.filterMap nextUrl
          = url :: (p :: (q :: rest2).dropLast).filterMap nextUrl
      simp [List.filterMap_cons, hu]

theorem fetchGo_params_tail {α β : Type} :
    ∀ (pages : List (Page α β)) (url : String) (i : Nat), i ≠ 0 →
      ∀ r ∈ (fetchGo pages url i).requests, r.params = none := by
  intro pages
  induction pages with
  | nil => intro url i hi r hr; simp [fetchGo] at hr
  | cons p rest ih =>
    intro url i hi r hr
    cases hu : nextUrl p with
    | none =>
      rw [fetchGo_cons_none p rest url i hu] at hr
      simp only [List.mem_singleton] at hr
      subst hr
      simp [if_neg hi]
    | some u =>
      rw [fetchGo_cons_some p rest url u i hu] at hr
      simp only [List.mem_cons] at hr
      rcases hr with hr | hr
      · subst hr; simp [if_neg hi]
      · exact ih u (i + 1) (Nat.succ_ne_zero i) r hr

/-! ## Claim C1 -/

/-- C1: on any well-formed response sequence (each page before the last
announces a next page via `links.next` or the `meta` fallbacks, the last
does not), `fetch_all_groups` returns the concatenation of every page's
`data` array in page order and likewise every page's `included` array,
the total count equals the sum of the per-page counts, and exactly one
request is issued per page (no page fetched twice, and fetching stops at
the page with no next cursor). -/
theorem C1_collector (α β : Type) (pages : List (Page α β)) (h : wellFormedB pages = true) :
    (fetch_all_groups pages).allData = pages.flatMap Page.data
    ∧ (fetch_all_groups pages).allIncluded = pages.flatMap Page.included
    ∧ (fetch_all_groups pages).allData.length = (pages.map (fun p => p.data.length)).sum
    ∧ (fetch_all_groups pages).requests.length = pages.length := by
  obtain ⟨h1, h2, h3, _⟩ := fetchGo_wf pages h BASE_URL 0
  refine ⟨h1, h2, ?_, h3⟩
  show (fetchGo pages BASE_URL 0).allData.length = _
  rw [h1]
  simp only [List.flatMap, List.length_flatten, List.map_map]
  rfl

/-- C1, witness: the two-page fixture. -/
theorem C1_collector_witness :
    (fetch_all_groups exPages).allData = [1, 2, 3]
    ∧ (fetch_all_groups exPages).allIncluded = [10]
    ∧ (fetch_all_groups exPages).requests.length = 2 := by
  have h := C1_collector Nat Nat exPages (by decide)
  exact ⟨h.1.trans (by decide), h.2.1.trans (by decide), h.2.2.2.trans (by decide)⟩

/-! ## Claim C8 -/

/-- C8: the collector sends the query parameters `per_page=100`,
`include=tags` only on the very first request; every subsequent request
carries no params and its URL is the previous page's next-page cursor,
verbatim. -/
theorem C8_first_request_only (α β : Type) (pages : List (Page α β))
    (h : wellFormedB pages = true) :
    (fetch_all_groups pages).requests.head? = some ⟨BASE_URL, some (100, "tags")⟩
    ∧ (∀ r ∈ (fetch_all_groups pages).requests.tail, r.params = none)
    ∧ (fetch_all_groups pages).requests.map Request.url
        = BASE_URL :: pages.dropLast.filterMap nextUrl := by
  refine ⟨?_, ?_, (fetchGo_wf pages h BASE_URL 0).2.2.2⟩
  · cases pages with
    | nil => simp [wellFormedB] at h
    | cons p rest =>
      show (fetchGo (p :: rest) BASE_URL 0).requests.head? = _
      cases hu : nextUrl p with
      | none => rw [fetchGo_cons_none p rest BASE_URL 0 hu]; rfl
      | some u => rw [fetchGo_cons_some p rest BASE_URL u 0 hu]; rfl
  · cases pages with
    | nil => simp [wellFormedB] at h
    | cons p rest =>
      show ∀ r ∈ (fetchGo (p :: rest) BASE_URL 0).requests.tail, r.params = none
      cases hu : nextUrl p with
      | none => rw [fetchGo_cons_none p rest BASE_URL 0 hu]; intro r hr; simp at hr
      | some u =>
        rw [fetchGo_cons_some p rest BASE_URL u 0 hu]
        exact fetchGo_params_tail rest u 1 (by omega)

/-- C8, witness: on the two-page fixture the first request carries the
params. -/
theorem C8_first_request_only_witness :
    (fetch_all_groups exPages).requests.head? = some ⟨BASE_URL, some (100, "tags")⟩ :=
  (C8_first_request_only Nat Nat exPages (by decide)).1

/-! ## Helper lemmas: the write loop -/

theorem insertBatches_cons_err (b : Backend) (batch : List Row) (rest : List (List Row))
    (i : Nat) (t : List Row) (e : String) (h : b.insertError i = some e) :
    insertBatches b (batch :: rest) i t = ([], t, some e) := by
  rw [show insertBatches b (batch :: rest) i t
      = (match b.insertError i with
         | some e => ([], t, some e)
         | none =>
           let r := insertBatches b rest (i + 1) (t ++ batch)
           (batch :: r.1, r.2.1, r.2.2)) from rfl, h]

theorem insertBatches_cons_ok (b : Backend) (batch : List Row) (rest : List (List Row))
    (i : Nat) (t : List Row) (h : b.insertError i = none) :
    insertBatches b (batch :: rest) i t
      = (batch :: (insertBatches b rest (i + 1) (t ++ batch)).1,
         (insertBatches b rest (i + 1) (t ++ batch)).2.1,
         (insertBatches b rest (i + 1) (t ++ batch)).2.2) := by
  rw [show insertBatches b (batch :: rest) i t
      = (match b.insertError i with
         | some e => ([], t, some e)
         | none =>
           let r := insertBatches b rest (i + 1) (t ++ batch)
           (batch :: r.1, r.2.1, r.2.2)) from rfl, h]

theorem firstErrLen_cons_err (b : Backend) (batch : List Row) (rest : List (List Row))
    (i : Nat) (e : String) (h : b.insertError i = some e) :
    firstErrLen b i (batch :: rest) = 0 := by
  rw [show firstErrLen b i (batch :: rest)
      = (match b.insertError i with
         | some _ => 0
         | none => firstErrLen b (i + 1) rest + 1) from rfl, h]

theorem firstErrLen_cons_ok (b : Backend) (batch : List Row) (rest : List (List Row))
    (i : Nat) (h : b.insertError i = none) :
    firstErrLen b i (batch :: rest) = firstErrLen b (i + 1) rest + 1 := by
  rw [show firstErrLen b i (batch :: rest)
      = (match b.insertError i with
         | some _ => 0
         | none => firstErrLen b (i + 1) rest + 1) from rfl, h]

theorem insertBatches_committed (b : Backend) :
    ∀ (bs : List (List Row)) (i : Nat) (t : List Row),
      (insertBatches b bs i t).1 = bs.take (firstErrLen b i bs) := by
  intro bs
  induction bs with
  | nil => intro i t; rfl
  | cons batch rest ih =>
    intro i t
    cases h : b.insertError i with
    | some e =>
      rw [insertBatches_cons_err b batch rest i t e h, firstErrLen_cons_err b batch rest i e h]
      rfl
    | none =>
      rw [insertBatches_cons_ok b batch rest i t h, firstErrLen_cons_ok b batch rest i h]
      rw [List.take_succ_cons]
      exact congrArg (batch :: ·) (ih (i + 1) (t ++ batch))

theorem insertBatches_table (b : Backend) :
    ∀ (bs : List (List Row)) (i : Nat) (t : List Row),
      (insertBatches b bs i t).2.1 = t ++ (bs.take (firstErrLen b i bs)).flatten := by
  intro bs
  induction bs with
  | nil => intro i t; simp [insertBatches]
  | cons batch rest ih =>
    intro i t
    cases h : b.insertError i with
    | some e =>
      rw [insertBatches_cons_err b batch rest i t e h, firstErrLen_cons_err b batch rest i e h]
      simp
    | none =>
      rw [insertBatches_cons_ok b batch rest i t h, firstErrLen_cons_ok b batch rest i h]
      rw [List.take_succ_cons, List.flatten_cons]
      show (insertBatches b rest (i + 1) (t ++ batch)).2.1 = _
      rw [ih (i + 1) (t ++ batch), List.append_assoc]

theorem insertBatches_error (b : Backend) :
    ∀ (bs : List (List Row)) (i : Nat) (t : List Row),
      ((insertBatches b bs i t).2.2 = none
        ↔ ∀ j, j < bs.length → b.insertError (i + j) = none) := by
  intro bs
  induction bs with
  | nil => intro i t; simp [insertBatches]
  | cons batch rest ih =>
    intro i t
    cases h : b.insertError i with
    | some e =>
      rw [insertBatches_cons_err b batch rest i t e h]
      constructor
      · intro hc; exact absurd hc (by simp)
      · intro hall
        have h0 := hall 0 (by simp)
        rw [Nat.add_zero, h] at h0
        exact absurd h0 (by simp)
    | none =>
      rw [insertBatches_cons_ok b batch rest i t h]
      show (insertBatches b rest (i + 1) (t ++ batch)).2.2 = none ↔ _
      rw [ih (i + 1) (t ++ batch)]
      constructor
      · intro hall j hj
        cases j with
        | zero => rw [Nat.add_zero]; exact h
        | succ k =>
          have hk := hall k (by simp at hj; omega)
          have e : i + (k + 1) = i + 1 + k := by omega
          rw [e]
          exact hk
      · intro hall j hj
        have hk := hall (j + 1) (by simp; omega)
        have e : i + 1 + j = i + (j + 1) := by omega
        rw [e]
        exact hk

theorem firstErrLen_all (b : Backend) (hb : ∀ j, b.insertError j = none) :
    ∀ (bs : List (List Row)) (i : Nat), firstErrLen b i bs = bs.length := by
  intro bs
  induction bs with
  | nil => intro i; rfl
  | cons batch rest ih =>
    intro i
    rw [firstErrLen_cons_ok b batch rest i (hb i), ih (i + 1)]
    rfl

theorem chunkGo_fuel {α : Type} :
    ∀ (n m : Nat) (l : List α), l.length ≤ n → l.length ≤ m → chunkGo n l = chunkGo m l := by
  intro n
  induction n with
  | zero =>
    intro m l hn _
    have hnil : l = [] := List.eq_nil_of_length_eq_zero (Nat.le_zero.mp hn)
    subst hnil
    cases m <;> rfl
  | succ n ih =>
    intro m l hn hm
    cases l with
    | nil => cases m <;> rfl
    | cons x rest =>
      cases m with
      | zero => exact absurd hm (by simp)
      | succ m =>
        show ((x :: rest).take 200) :: chunkGo n ((x :: rest).drop 200)
            = ((x :: rest).take 200) :: chunkGo m ((x :: rest).drop 200)
        have hd : ((x :: rest).drop 200).length ≤ n := by
          simp only [List.length_drop, List.length_cons] at hn ⊢
          omega
        have hd2 : ((x :: rest).drop 200).length ≤ m := by
          simp only [List.length_drop, List.length_cons] at hm ⊢
          omega
        rw [ih m ((x :: rest).drop 200) hd hd2]

theorem chunk200_cons {α : Type} (x : α) (rest : List α) :
    chunk200 (x :: rest) = (x :: rest).take 200 :: chunk200 ((x :: rest).drop 200) := by
  show chunkGo (rest.length + 1) (x :: rest)
      = (x :: rest).take 200 :: chunkGo ((x :: rest).drop 200).length ((x :: rest).drop 200)
  show (x :: rest).take 200 :: chunkGo rest.length ((x :: rest).drop 200)
      = (x :: rest).take 200 :: chunkGo ((x :: rest).drop 200).length ((x :: rest).drop 200)
  rw [chunkGo_fuel rest.length ((x :: rest).drop 200).length ((x :: rest).drop 200)
    (by simp only [List.length_drop, List.length_cons]; omega) (Nat.le.refl)]

theorem chunk200_flatten {α : Type} (l : List α) : (chunk200 l).flatten = l := by
  have key : ∀ (n : Nat) (m : List α), m.length ≤ n → (chunk200 m).flatten = m := by
    intro n
    induction n with
    | zero =>
      intro m hm
      have hnil : m = [] := List.eq_nil_of_length_eq_zero (Nat.le_zero.mp hm)
      subst hnil
      rfl
    | succ n ih =>
      intro m hm
      cases m with
      | nil => rfl
      | cons x rest =>
        have hdrop : ((x :: rest).drop 200).length ≤ n := by
          simp only [List.length_drop, List.length_cons] at hm ⊢
          omega
        rw [chunk200_cons, List.flatten_cons, ih ((x :: rest).drop 200) hdrop]
        exact List.take_append_drop 200 (x :: rest)
  exact key l.length l Nat.le.refl

/-! ## Claim C2 -/

theorem reconcile_spec (b : Backend) (rows init : List Row) :
    ((reconcile b rows init).error = none
      ↔ b.deleteError = none
        ∧ ∀ i, i < (chunk200 rows).length → b.insertError i = none)
    ∧ (b.deleteError = none →
        (reconcile b rows init).cleared = true
        ∧ (reconcile b rows init).committed
            = (chunk200 rows).take (firstErrLen b 0 (chunk200 rows))
        ∧ (reconcile b rows init).table
            = init.filter survivesClear
              ++ ((chunk200 rows).take (firstErrLen b 0 (chunk200 rows))).flatten)
    ∧ (∀ e, b.deleteError = some e →
        (reconcile b rows init).error = some e
        ∧ (reconcile b rows init).committed = []
        ∧ (reconcile b rows init).cleared = false
        ∧ (reconcile b rows init).table = init) := by
  cases hd : b.deleteError with
  | some e =>
    have hrec : reconcile b rows init = ⟨false, [], init, some e⟩ := by
      rw [show reconcile b rows init
          = (match b.deleteError with
             | some e => ⟨false, [], init, some e⟩
             | none =>
               let t0 := init.filter survivesClear
               let r := insertBatches b (chunk200 rows) 0 t0
               ⟨true, r.1, r.2.1, r.2.2⟩) from rfl, hd]
    refine ⟨?_, ?_, ?_⟩
    · rw [hrec]
      simp
    · intro hcontra
      exact absurd hcontra (by simp)
    · intro e' he
      have : e = e' := Option.some.inj he
      subst this
      rw [hrec]
      exact ⟨rfl, rfl, rfl, rfl⟩
  | none =>
    have hrec : reconcile b rows init
        = ⟨true, (insertBatches b (chunk200 rows) 0 (init.filter survivesClear)).1,
           (insertBatches b (chunk200 rows) 0 (init.filter survivesClear)).2.1,
           (insertBatches b (chunk200 rows) 0 (init.filter survivesClear)).2.2⟩ := by
      rw [show reconcile b rows init
          = (match b.deleteError with
             | some e => ⟨false, [], init, some e⟩
             | none =>
               let t0 := init.filter survivesClear
               let r := insertBatches b (chunk200 rows) 0 t0
               ⟨true, r.1, r.2.1, r.2.2⟩) from rfl, hd]
    refine ⟨?_, ?_, ?_⟩
    · rw [hrec]
      show (insertBatches b (chunk200 rows) 0 (init.filter survivesClear)).2.2 = none ↔ _
      rw [insertBatches_error b (chunk200 rows) 0 (init.filter survivesClear)]
      constructor
      · intro hall
        exact ⟨rfl, fun i hi => by have := hall i hi; rwa [Nat.zero_add] at this⟩
      · intro hall j hj
        rw [Nat.zero_add]
        exact hall.2 j hj
    · intro _
      rw [hrec]
      exact ⟨rfl, insertBatches_committed b (chunk200 rows) 0 (init.filter survivesClear),
        insertBatches_table b (chunk200 rows) 0 (init.filter survivesClear)⟩
    · intro e he
      exact absurd he (by simp)

/-- C2: the run reports success exactly when the delete response and every
batch-insert response carry no backend error (so any backend-reported
error makes it raise, even though the transport call succeeded); when the
delete succeeded, the committed batches are exactly those before the first
erroring batch (remaining batches are not attempted, earlier batches and
the delete are not rolled back); a delete error raises before any batch is
attempted. -/
theorem C2_backend_errors (b : Backend) (rows init : List Row) :
    ((reconcile b rows init).error = none
      ↔ b.deleteError = none
        ∧ ∀ i, i < (chunk200 rows).length → b.insertError i = none)
    ∧ (b.deleteError = none →
        (reconcile b rows init).cleared = true
        ∧ (reconcile b rows init).committed
            = (chunk200 rows).take (firstErrLen b 0 (chunk200 rows))
        ∧ (reconcile b rows init).table
            = init.filter survivesClear
              ++ ((chunk200 rows).take (firstErrLen b 0 (chunk200 rows))).flatten)
    ∧ (∀ e, b.deleteError = some e →
        (reconcile b rows init).error = some e
        ∧ (reconcile b rows init).committed = []
        ∧ (reconcile b rows init).cleared = false
        ∧ (reconcile b rows init).table = init) :=
  reconcile_spec b rows init

set_option maxRecDepth 8000 in
/-- C2, witness: a backend error on the delete raises with no batch
committed; a backend error on the second of two batches (transport
success) still makes the run raise. -/
theorem C2_backend_errors_witness :
    ((reconcile delErrBackend [] []).error = some "delete failed"
      ∧ (reconcile delErrBackend [] []).committed = [])
    ∧ ¬ (reconcile batch2ErrBackend (List.replicate 201 exRow) []).error = none := by
  constructor
  · have h := (C2_backend_errors delErrBackend [] []).2.2 "delete failed" rfl
    exact ⟨h.1, h.2.1⟩
  · intro hc
    have h := (C2_backend_errors batch2ErrBackend (List.replicate 201 exRow) []).1.mp hc
    have h1 := h.2 1 (by decide)
    exact absurd h1 (by decide)

/-! ## Claim C7 -/

theorem SyncResult_ext (r s : SyncResult) (h1 : r.cleared = s.cleared)
    (h2 : r.committed = s.committed) (h3 : r.table = s.table) (h4 : r.error = s.error) :
    r = s := by
  cases r
  cases s
  simp only at h1 h2 h3 h4
  rw [h1, h2, h3, h4]

theorem sync_clean (b : Backend) (data : List Group) (included : List IncludedItem)
    (init : List Row) (hdel : b.deleteError = none) (hins : ∀ i, b.insertError i = none)
    (hinit : init.filter survivesClear = []) :
    sync b data included init
      = ⟨true, chunk200 (data.map (fun g => transform_group g (build_tag_lookup included))),
         data.map (fun g => transform_group g (build_tag_lookup included)), none⟩ := by
  have h := reconcile_spec b
    (data.map (fun g => transform_group g (build_tag_lookup included))) init
  have herr :
      (reconcile b (data.map (fun g => transform_group g (build_tag_lookup included))) init).error
        = none :=
    h.1.mpr ⟨hdel, fun i _ => hins i⟩
  obtain ⟨hcl, hcom, htab⟩ := h.2.1 hdel
  have hfl := firstErrLen_all b hins
    (chunk200 (data.map (fun g => transform_group g (build_tag_lookup included)))) 0
  rw [hfl, List.take_length] at hcom htab
  rw [hinit, List.nil_append, chunk200_flatten] at htab
  exact SyncResult_ext _ _ hcl hcom htab herr

/-- C7: after a successful run of the pipeline (all backend responses
error-free, distinct truthy upstream ids, a destination table previously
populated only with keyed rows), the destination table is exactly the
transformed rows — one row per distinct upstream group id — and running
the pipeline a second time on identical upstream data yields the identical
result (same table, no duplication). -/
theorem C7_idempotent (b : Backend) (data : List Group) (included : List IncludedItem)
    (init : List Row) (hdel : b.deleteError = none) (hins : ∀ i, b.insertError i = none)
    (hids : ∀ g ∈ data, ∃ s, g.id = some s ∧ s ≠ "")
    (hnodup : (data.map Group.id).Nodup)
    (hinit : ∀ r ∈ init, ∃ s, r.pco_group_id = some s ∧ s ≠ "") :
    (sync b data included init).error = none
    ∧ (sync b data included init).table
        = data.map (fun g => transform_group g (build_tag_lookup included))
    ∧ (∀ g ∈ data,
        ((sync b data included init).table.countP
          (fun r => decide (r.pco_group_id = g.id))) = 1)
    ∧ sync b data included ((sync b data included init).table) = sync b data included init := by
  have hfil : init.filter survivesClear = [] := by
    rw [List.filter_eq_nil_iff]
    intro r hr
    obtain ⟨s, hs, hne⟩ := hinit r hr
    simp [survivesClear, hs, hne]
  have h1 := sync_clean b data included init hdel hins hfil
  have hrowsfil :
      (data.map (fun g => transform_group g (build_tag_lookup included))).filter survivesClear
        = [] := by
    rw [List.filter_eq_nil_iff]
    intro r hr
    obtain ⟨g, hg, hgr⟩ := List.mem_map.mp hr
    obtain ⟨s, hs, hne⟩ := hids g hg
    have hid : r.pco_group_id = g.id := by rw [← hgr]; rfl
    simp [survivesClear, hid, hs, hne]
  have h2 := sync_clean b data included
    (data.map (fun g => transform_group g (build_tag_lookup included))) hdel hins hrowsfil
  refine ⟨by rw [h1], by rw [h1], ?_, ?_⟩
  · intro g hg
    rw [h1]
    show (data.map (fun g => transform_group g (build_tag_lookup included))).countP
        (fun r => decide (r.pco_group_id = g.id)) = 1
    rw [List.countP_map]
    have hpt : ((fun r => decide (r.pco_group_id = g.id))
        ∘ (fun g' => transform_group g' (build_tag_lookup included)))
        = fun g' => decide (g'.id = g.id) := rfl
    rw [hpt]
    have hc1 := List.count_eq_one_of_mem hnodup (List.mem_map_of_mem Group.id hg)
    rw [@List.count_eq_countP (Option String) (@instBEqOfDecidableEq (Option String) _) g.id
      (data.map Group.id), List.countP_map] at hc1
    rw [← hc1]
    exact List.countP_congr (fun g' _ => by
      by_cases hx : g'.id = g.id <;> simp [hx, Function.comp])
  · calc sync b data included ((sync b data included init).table)
        = sync b data included
            (data.map (fun g => transform_group g (build_tag_lookup included))) := by rw [h1]
      _ = ⟨true, chunk200 (data.map (fun g => transform_group g (build_tag_lookup included))),
           data.map (fun g => transform_group g (build_tag_lookup included)), none⟩ := h2
      _ = sync b data included init := h1.symm

/-- C7, witness: one upstream group, an empty table, a quiet backend. -/
theorem C7_idempotent_witness :
    (sync quietBackend [exSyncGroup] [] []).error = none
    ∧ sync quietBackend [exSyncGroup] []
        ((sync quietBackend [exSyncGroup] [] []).table)
      = sync quietBackend [exSyncGroup] [] [] := by
  have h := C7_idempotent quietBackend [exSyncGroup] [] [] rfl (fun _ => rfl)
    (by
      intro g hg
      have : g = exSyncGroup := by simpa using hg
      subst this
      exact ⟨"s1", rfl, by decide⟩)
    (by decide)
    (by intro r hr; simp at hr)
  exact ⟨h.1, h.2.2.2⟩

end SyncGroups
